import Mathlib

/-!
Verification of extract_and_build.py: a scraper that fetches a Wikipedia page,
selects rows 2..11 of the FIFA World Cup finals wikitable, normalizes the cell
text, and writes two JSON documents.

The development shallowly embeds the script:
in this file strings are `List Char`, HTML documents are `Node` trees, and the
four XPath queries, the text normalizer `clean_text`, the extractor
`scrape_first10` and the effectful part of `main` are translated directly from
the source. Machine-level concerns (HTTP, actual file IO) are modelled as data:
`runMain` returns the list of filesystem actions `main` performs after a
successful scrape.
-/

/-- Convert a Lean string literal to the `List Char` representation used throughout. -/
def str (s : String) : List Char := s.data

/-- The characters Python treats as whitespace: `re` class `\s` on `str` (Unicode
mode) and the default `str.strip` agree on this set. -/
def isPySpace (c : Char) : Bool :=
  c = ' ' || c = '\t' || c = '\n' || c = '\r' || c = Char.ofNat 11 || c = Char.ofNat 12 ||
  c = Char.ofNat 28 || c = Char.ofNat 29 || c = Char.ofNat 30 || c = Char.ofNat 31 ||
  c = Char.ofNat 133 || c = Char.ofNat 160 || c = Char.ofNat 0x1680 ||
  (0x2000 ≤ c.toNat && c.toNat ≤ 0x200a) ||
  c = Char.ofNat 0x2028 || c = Char.ofNat 0x2029 || c = Char.ofNat 0x202f ||
  c = Char.ofNat 0x205f || c = Char.ofNat 0x3000

/-- The non-breaking space character replaced by `clean_text` (line 31 of the source). -/
def nbsp : Char := Char.ofNat 160

/-- Split a character list at the first `]`: the (`]`-free) prefix and the suffix after
that `]`, or `none` when no `]` occurs. This models where a match of the citation
regex `\[\s*[^]]+\]` must end: `[^]]` cannot cross a `]`, so a match beginning at
some `[` always closes at the first `]` after it. -/
def splitAtRB : List Char → Option (List Char × List Char)
  | [] => none
  | c :: cs => if c = ']' then some ([], cs) else (splitAtRB cs).map (fun p => (c :: p.1, p.2))

/-- Fueled scanner for `re.sub(r"\[\s*[^]]+\]", "", txt)` (line 30). At a `[`, the
regex matches exactly when at least one non-`]` character is followed by a `]`
(`\s*[^]]+` together match any nonempty `]`-free run); the whole match is dropped
and scanning resumes after the closing `]`. Any other character is kept. The fuel
only bounds the recursion; `removeBrackets` supplies enough for one left-to-right
pass. -/
def rbF : Nat → List Char → List Char
  | 0, l => l
  | _ + 1, [] => []
  | fuel + 1, c :: cs =>
    if c = '[' then
      match splitAtRB cs with
      | some ([], _) => '[' :: rbF fuel cs
      | some (_ :: _, rest) => rbF fuel rest
      | none => '[' :: rbF fuel cs
    else c :: rbF fuel cs

/-- Line 30 of the source: delete every citation-style bracket group. -/
def removeBrackets (l : List Char) : List Char := rbF l.length l

/-- Line 31: `txt.replace(" ", " ")`. -/
def replaceNbsp (l : List Char) : List Char := l.map (fun c => if c = nbsp then ' ' else c)

/-- Fueled scanner for `re.sub(r"\s+", " ", txt)` (line 32): each maximal run of
whitespace becomes a single ordinary space. -/
def cwF : Nat → List Char → List Char
  | 0, l => l
  | _ + 1, [] => []
  | fuel + 1, c :: cs =>
    if isPySpace c then ' ' :: cwF fuel (cs.dropWhile isPySpace)
    else c :: cwF fuel cs

/-- Line 32 of the source: collapse whitespace runs to single spaces. -/
def collapseWs (l : List Char) : List Char := cwF l.length l

/-- Line 33: `txt.strip()` — drop leading and trailing whitespace. -/
def pyStrip (l : List Char) : List Char :=
  (((l.dropWhile isPySpace).reverse).dropWhile isPySpace).reverse

/-- Lines 26-33 of the source: `clean_text`. A missing (`None`) input maps to the
empty string; otherwise citation brackets are removed, non-breaking spaces become
spaces, whitespace runs collapse to one space, and the ends are trimmed. -/
def clean_text : Option (List Char) → List Char
  | none => []
  | some t => pyStrip (collapseWs (replaceNbsp (removeBrackets t)))

/-- Lines 35-36 of the source: `join_and_clean` — clean the concatenation of the
text fragments, or return the empty string for an empty fragment list. -/
def join_and_clean (nodes : List (List Char)) : List Char :=
  if nodes.isEmpty then [] else clean_text (some nodes.flatten)

/-- Does a match of the citation regex start right after a `[` whose remaining input
is `cs`? True exactly when the first `]` in `cs` is preceded by at least one character. -/
def brkMatchAt (cs : List Char) : Bool :=
  match splitAtRB cs with
  | some (w, _) => !w.isEmpty
  | none => false

/-- Checker for claim C4: does the list contain a substring consisting of `[`, one or
more non-`]` characters, then `]` (a match of the citation pattern)? -/
def hasBracketPat : List Char → Bool
  | [] => false
  | c :: cs => (c = '[' && brkMatchAt cs) || hasBracketPat cs

/-- Checker: does the list contain the non-breaking-space character? -/
def containsNbsp (l : List Char) : Bool := l.any (fun c => c = nbsp)

/-- Checker: does the list contain two adjacent whitespace characters? -/
def hasDoubleWs : List Char → Bool
  | c :: d :: r => (isPySpace c && isPySpace d) || hasDoubleWs (d :: r)
  | _ => false

/-- Checker: does the list start or end with a whitespace character? -/
def hasEdgeWs (l : List Char) : Bool :=
  (match l.head? with | some c => isPySpace c | none => false) ||
  (match l.getLast? with | some c => isPySpace c | none => false)

/-- Python `\d` restricted to the decimal digits that occur in the scraped data. -/
def pyDigit (c : Char) : Bool := c.isDigit

/-- Does a match of `\d+\s*[–-]\s*\d+` (line 56 of the source) start at the head of
`s`? The greedy quantifiers are exact here: a digit is neither whitespace nor a
dash, so backtracking can never turn a failure into a success. -/
def scoreMatchAt (s : List Char) : Bool :=
  match s.span pyDigit with
  | ([], _) => false
  | (_ :: _, r1) =>
    match r1.dropWhile isPySpace with
    | [] => false
    | c :: r3 =>
      if c = '–' || c = '-' then
        match r3.dropWhile isPySpace with
        | [] => false
        | d :: _ => pyDigit d
      else false

/-- `re.search(r"\d+\s*[–-]\s*\d+", s) is not None`: a match starts at some position. -/
def hasScoreShape : List Char → Bool
  | [] => false
  | c :: cs => scoreMatchAt (c :: cs) || hasScoreShape cs


/-- A parsed HTML tree as produced by `lxml.html.fromstring`: an element with a tag
name, the value of its `class` attribute (the only attribute the script queries),
and its children in document order, or a text node. -/
inductive Node where
  | text (s : List Char)
  | elem (tag : List Char) (cls : List Char) (children : List Node)

mutual
/-- All nodes of the subtree rooted at `n`, in document (pre-)order, root included. -/
def descendants : Node → List Node
  | .text s => [.text s]
  | .elem t c cs => .elem t c cs :: descendantsList cs

/-- Concatenated `descendants` of a forest, in document order. -/
def descendantsList : List Node → List Node
  | [] => []
  | n :: ns => descendants n ++ descendantsList ns
end

mutual
/-- The contents of the text nodes below an element, in document order: what the
XPath step `//text()` returns when applied to an element node. -/
def textNodes : Node → List (List Char)
  | .text s => [s]
  | .elem _ _ cs => textNodesList cs

/-- Concatenated `textNodes` of a forest. -/
def textNodesList : List Node → List (List Char)
  | [] => []
  | n :: ns => textNodes n ++ textNodesList ns
end

/-- The children of a node (text nodes have none). -/
def childrenOf : Node → List Node
  | .text _ => []
  | .elem _ _ cs => cs

/-- The `class` attribute of a node (empty for text nodes). -/
def classOf : Node → List Char
  | .text _ => []
  | .elem _ cls _ => cls

/-- Is the node an element with the given tag name? -/
def isTag (t : List Char) : Node → Bool
  | .text _ => false
  | .elem tag _ _ => tag = t

/-- The XPath string-value of a node: all descendant text, concatenated. -/
def textContent (n : Node) : List Char := (textNodes n).flatten

/-- Is `pre` a prefix of `l`? -/
def isPrefixL : List Char → List Char → Bool
  | [], _ => true
  | _ :: _, [] => false
  | a :: as, b :: bs => a = b && isPrefixL as bs

/-- XPath `contains(hay, needle)`: substring test. -/
def containsSub (hay needle : List Char) : Bool :=
  isPrefixL needle hay ||
    (match hay with
     | [] => false
     | _ :: t => containsSub t needle)

/-- The caption marker of `TABLE_XPATH` (lines 13-16 of the source). -/
def captionMarker : List Char := str "List of FIFA World Cup finals"

/-- The predicate part of `TABLE_XPATH`:
`table[contains(@class,'wikitable')][.//caption[contains(.,'List of FIFA World Cup finals')]]`. -/
def isTableMatch (n : Node) : Bool :=
  isTag (str "table") n && containsSub (classOf n) (str "wikitable") &&
    (descendantsList (childrenOf n)).any
      (fun m => isTag (str "caption") m && containsSub (textContent m) captionMarker)

/-- `//table[...]`: every matching table in the document, in document order. -/
def matchingTables (doc : Node) : List Node := (descendants doc).filter isTableMatch

/-- `TABLE_XPATH/tbody/tr`: the `tr` children of the `tbody` children of every
matching table, in document order. -/
def bodyRows (doc : Node) : List Node :=
  (matchingTables doc).flatMap fun t =>
    ((childrenOf t).filter (isTag (str "tbody"))).flatMap fun b =>
      (childrenOf b).filter (isTag (str "tr"))

/-- `ROWS_1_TO_10_XPATH = (TABLE_XPATH/tbody/tr)[position()>1 and position()<=11]`
(line 18): positions 2..11 of the combined row set, i.e. drop one, take ten. -/
def rows_1_to_10 (doc : Node) : List Node := ((bodyRows doc).drop 1).take 10

/-- `YEAR_REL_XPATH = ./*[self::th or self::td][1]` (line 21): the first element child
that is a `th` or a `td`. -/
def firstThTd (tr : Node) : Option Node :=
  (childrenOf tr).find? (fun c => isTag (str "th") c || isTag (str "td") c)

/-- The `td` element children of a row, in order: `./td[k]` is entry `k-1` of this list. -/
def tdCells (tr : Node) : List Node := (childrenOf tr).filter (isTag (str "td"))

/-- `cell//text()` for an optional cell: the empty node-set when the cell is absent. -/
def cellText : Option Node → List (List Char)
  | some n => textNodes n
  | none => []

/-- Line 50 of the source: the cleaned text of `./*[self::th or self::td][1]//text()`. -/
def yearOf (tr : Node) : List Char := join_and_clean (cellText (firstThTd tr))

/-- Line 51: the cleaned text of `./td[1]//text()`. -/
def winnerOf (tr : Node) : List Char := join_and_clean (cellText (tdCells tr)[0]?)

/-- Line 52: the cleaned text of `./td[2]//text()`. -/
def scoreOf (tr : Node) : List Char := join_and_clean (cellText (tdCells tr)[1]?)

/-- Line 53: the cleaned text of `./td[3]//text()`. -/
def runnersUpOf (tr : Node) : List Char := join_and_clean (cellText (tdCells tr)[2]?)

/-- Line 59: the four-field row appended to `values` for one `tr`. -/
def rowOf (tr : Node) : List (List Char) := [yearOf tr, winnerOf tr, scoreOf tr, runnersUpOf tr]

/-- Line 48: the fixed header row. -/
def headerRow : List (List Char) := [str "year", str "winner", str "score", str "runners_up"]

/-- Line 46: the message of the `RuntimeError` raised when the row query is empty. -/
def scrapeErr : List Char :=
  str "Could not locate finals table rows with XPath. Page structure may have changed."

/-- Lines 44-60 of the source: `scrape_first10` on an already-fetched document.
If the positional row query returns no rows, a `RuntimeError` is raised (modelled
as `Except.error`); otherwise the result is the header row followed by one
four-field row per selected `tr`. -/
def scrape_first10 (doc : Node) : Except (List Char) (List (List (List Char))) :=
  let rows := rows_1_to_10 doc
  if rows.isEmpty then .error scrapeErr
  else .ok (headerRow :: rows.map rowOf)

/-- Lines 56-57 of the source: the per-row sanity hint. `some y` means the warning
naming year `y` is printed for this row; `none` means the row passes silently. -/
def rowWarn (tr : Node) : Option (List Char) :=
  if hasScoreShape (scoreOf tr) then none else some (yearOf tr)

/-- A JSON value as produced by `json.dump` in this script. -/
inductive JVal where
  | str (s : List Char)
  | arr (xs : List JVal)
  | obj (fields : List (List Char × JVal))

/-- The values document: the grid serialized verbatim as a 2-D JSON array. -/
def gridJson (values : List (List (List Char))) : JVal :=
  .arr (values.map (fun r => .arr (r.map JVal.str)))

/-- Line 78: the append-body document `{"range": range, "majorDimension": "ROWS", "values": values}`. -/
def bodyJson (rng : List Char) (values : List (List (List Char))) : JVal :=
  .obj [(str "range", .str rng), (str "majorDimension", .str (str "ROWS")),
        (str "values", gridJson values)]

/-- The field names of a JSON object, in order. -/
def JVal.keys : JVal → List (List Char)
  | .obj fs => fs.map Prod.fst
  | _ => []

/-- Look up a field of a JSON object by name. -/
def JVal.getField : JVal → List Char → Option JVal
  | .obj fs, k => (fs.find? (fun f => f.1 == k)).map Prod.snd
  | _, _ => none

/-- A filesystem action performed by `main`. `write p v` models
`open(p, "w", encoding="utf-8")` followed by `json.dump(v, f, ...)`: the file at
`p` is created or truncated, so an existing file is overwritten unconditionally.
`mkdir d` models `os.makedirs(d, exist_ok=True)`: create `d` if absent. -/
inductive FsEffect where
  | mkdir (dir : List Char)
  | write (path : List Char) (content : JVal)

/-- `os.path.dirname` for the slash-separated relative paths this program handles:
everything before the last `/`, or the empty string when there is no `/`. -/
def dirname (p : List Char) : List Char :=
  ((p.reverse.dropWhile (fun c => c ≠ '/')).drop 1).reverse

/-- Lines 70-78 of the source: the effectful tail of `main` applied to the fetched
document and the `--range` / `--values-out` / `--body-out` arguments. A scrape
error propagates out of `main`, in which case none of the filesystem actions
happens; on success `main` performs exactly `os.makedirs("data", exist_ok=True)`
followed by the two writes, in this order. -/
def runMain (doc : Node) (rng vout bout : List Char) : Except (List Char) (List FsEffect) :=
  match scrape_first10 doc with
  | .error e => .error e
  | .ok values =>
      .ok [FsEffect.mkdir (str "data"),
           FsEffect.write vout (gridJson values),
           FsEffect.write bout (bodyJson rng values)]

/-- A `td` cell holding one text node. -/
def mkTd (s : String) : Node := .elem (str "td") (str "") [.text (str s)]

/-- A `th` cell holding one text node. -/
def mkTh (s : String) : Node := .elem (str "th") (str "") [.text (str s)]

/-- A data row shaped like the Wikipedia finals rows: a `th` year cell followed by
`td` cells for winner, score and runners-up. -/
def mkRow (y w sc r : String) : Node :=
  .elem (str "tr") (str "") [mkTh y, mkTd w, mkTd sc, mkTd r]

/-- The header row of the fixture table: four `th` cells. -/
def headerTr : Node :=
  .elem (str "tr") (str "")
    [mkTh "Year", mkTh "Winners", mkTh "Score", mkTh "Runners-up"]

/-- A wikitable carrying the caption marker, with the given `tbody` rows. -/
def mkTable (rows : List Node) : Node :=
  .elem (str "table") (str "wikitable sortable")
    [.elem (str "caption") (str "") [.text captionMarker],
     .elem (str "tbody") (str "") rows]

/-- A document whose body holds one fixture table. -/
def mkDoc (rows : List Node) : Node :=
  .elem (str "html") (str "") [.elem (str "body") (str "") [mkTable rows]]

/-- A finals-style data row: year in a `th`, the rest in `td` cells (1930 final). -/
def fix5rA : Node := mkRow "1930" "Uruguay" "4–2" "Argentina"

/-- A data row whose score cell reads `TBD` (no digits-dash-digits shape). -/
def fix5rB : Node := mkRow "1934" "Italy" "TBD" "Czechoslovakia"

/-- A third well-formed data row. -/
def fix5rC : Node := mkRow "1938" "Italy" "4–2" "Hungary"

/-- A fourth well-formed data row. -/
def fix5rD : Node := mkRow "1950" "Uruguay" "2–1" "Brazil"

/-- A fixture document whose matching table has 5 body rows: 1 header + 4 data —
fewer than the 11 the positional slice expects. -/
def fixture5 : Node := mkDoc [headerTr, fix5rA, fix5rB, fix5rC, fix5rD]

/-- The grid `scrape_first10` produces on `fixture5`: only 1 + 4 rows. -/
def grid5 : List (List (List Char)) :=
  [headerRow,
   [str "1930", str "Uruguay", str "4–2", str "Argentina"],
   [str "1934", str "Italy", str "TBD", str "Czechoslovakia"],
   [str "1938", str "Italy", str "4–2", str "Hungary"],
   [str "1950", str "Uruguay", str "2–1", str "Brazil"]]

/-- A fixture document whose matching table has 12 body rows: 1 header + 11 data. -/
def fixture12 : Node := mkDoc
  [headerTr,
   mkRow "y1" "w1" "s1" "r1", mkRow "y2" "w2" "s2" "r2", mkRow "y3" "w3" "s3" "r3",
   mkRow "y4" "w4" "s4" "r4", mkRow "y5" "w5" "s5" "r5", mkRow "y6" "w6" "s6" "r6",
   mkRow "y7" "w7" "s7" "r7", mkRow "y8" "w8" "s8" "r8", mkRow "y9" "w9" "s9" "r9",
   mkRow "y10" "w10" "s10" "r10", mkRow "y11" "w11" "s11" "r11"]

/-- The expected grid for `fixture12`: header plus body rows 2-11 (the data rows
`y1`..`y10`); body row 12 (`y11`) is ignored. -/
def grid12 : List (List (List Char)) :=
  [headerRow,
   [str "y1", str "w1", str "s1", str "r1"], [str "y2", str "w2", str "s2", str "r2"],
   [str "y3", str "w3", str "s3", str "r3"], [str "y4", str "w4", str "s4", str "r4"],
   [str "y5", str "w5", str "s5", str "r5"], [str "y6", str "w6", str "s6", str "r6"],
   [str "y7", str "w7", str "s7", str "r7"], [str "y8", str "w8", str "s8", str "r8"],
   [str "y9", str "w9", str "s9", str "r9"], [str "y10", str "w10", str "s10", str "r10"]]

/-- A document with no table at all, so the caption-and-class query matches nothing. -/
def noTableDoc : Node :=
  .elem (str "html") (str "") [.elem (str "body") (str "") [.text (str "no table here")]]

/-- The directories created by a list of filesystem actions, in order. -/
def mkdirDirs (effs : List FsEffect) : List (List Char) :=
  effs.filterMap fun e =>
    match e with
    | .mkdir d => some d
    | .write _ _ => none

theorem splitAtRB_some : ∀ {cs w rest : List Char}, splitAtRB cs = some (w, rest) →
    cs = w ++ ']' :: rest ∧ ']' ∉ w := by
  intro cs
  induction cs with
  | nil => intro w rest h; simp [splitAtRB] at h
  | cons c cs ih =>
    intro w rest h
    rw [splitAtRB] at h
    by_cases hc : c = ']'
    · rw [if_pos hc] at h
      injection h with h'
      cases h'
      simp [hc]
    · rw [if_neg hc, Option.map_eq_some'] at h
      obtain ⟨⟨w', r'⟩, h1, h2⟩ := h
      injection h2 with ha hb
      cases ha
      cases hb
      obtain ⟨hcs, hnot⟩ := ih h1
      subst hcs
      refine ⟨rfl, ?_⟩
      simp only [List.mem_cons, not_or]
      exact ⟨fun he => hc he.symm, hnot⟩

theorem splitAtRB_none : ∀ {cs : List Char}, splitAtRB cs = none → ']' ∉ cs := by
  intro cs
  induction cs with
  | nil => intro _; simp
  | cons c cs ih =>
    intro h
    rw [splitAtRB] at h
    by_cases hc : c = ']'
    · rw [if_pos hc] at h; exact absurd h (by simp)
    · rw [if_neg hc, Option.map_eq_none'] at h
      simp only [List.mem_cons, not_or]
      exact ⟨fun he => hc he.symm, ih h⟩

theorem splitAtRB_of_not_mem : ∀ {cs : List Char}, ']' ∉ cs → splitAtRB cs = none := by
  intro cs
  induction cs with
  | nil => intro _; rfl
  | cons c cs ih =>
    intro h
    rw [splitAtRB, if_neg (fun hc => h (List.mem_cons.mpr (Or.inl hc.symm))),
      ih (fun hm => h (List.mem_cons_of_mem c hm))]
    rfl

theorem splitAtRB_prefix : ∀ {w : List Char}, ']' ∉ w → ∀ (b : List Char),
    splitAtRB (w ++ ']' :: b) = some (w, b) := by
  intro w
  induction w with
  | nil => intro _ b; simp [splitAtRB]
  | cons c cs ih =>
    intro h b
    have hc : ¬(c = ']') := fun hc => h (List.mem_cons.mpr (Or.inl hc.symm))
    rw [List.cons_append, splitAtRB, if_neg hc, ih (fun hm => h (List.mem_cons_of_mem c hm)) b]
    rfl

theorem mem_rbF : ∀ (fuel : Nat) (l : List Char) (x : Char), x ∈ rbF fuel l → x ∈ l := by
  intro fuel
  induction fuel with
  | zero => intro l x hx; exact hx
  | succ fuel ih =>
    intro l x hx
    cases l with
    | nil => exact hx
    | cons c cs =>
      rw [rbF] at hx
      by_cases hc : c = '['
      · rw [if_pos hc] at hx
        cases hsp : splitAtRB cs with
        | none =>
          rw [hsp] at hx
          rcases List.mem_cons.mp hx with h | h
          · exact List.mem_cons.mpr (Or.inl (h.trans hc.symm))
          · exact List.mem_cons_of_mem _ (ih cs x h)
        | some p =>
          obtain ⟨w, rest⟩ := p
          cases w with
          | nil =>
            rw [hsp] at hx
            rcases List.mem_cons.mp hx with h | h
            · exact List.mem_cons.mpr (Or.inl (h.trans hc.symm))
            · exact List.mem_cons_of_mem _ (ih cs x h)
          | cons a as =>
            rw [hsp] at hx
            have hx' : x ∈ rest := ih rest x hx
            have hcs := (splitAtRB_some hsp).1
            subst hcs
            exact List.mem_cons_of_mem _ (by simp [hx'])
      · rw [if_neg hc] at hx
        rcases List.mem_cons.mp hx with h | h
        · exact List.mem_cons.mpr (Or.inl h)
        · exact List.mem_cons_of_mem _ (ih cs x h)

theorem brkMatchAt_rsb (t : List Char) : brkMatchAt (']' :: t) = false := by
  rw [brkMatchAt, splitAtRB]
  simp

theorem rbF_cons_rsb (fuel : Nat) (rest : List Char) :
    ∃ t, rbF fuel (']' :: rest) = ']' :: t := by
  cases fuel with
  | zero => exact ⟨rest, rfl⟩
  | succ fuel => exact ⟨rbF fuel rest, by rw [rbF, if_neg (by decide)]⟩

theorem hasBracketPat_rbF : ∀ (fuel : Nat) (l : List Char), l.length ≤ fuel →
    hasBracketPat (rbF fuel l) = false := by
  intro fuel
  induction fuel with
  | zero =>
    intro l hl
    have : l = [] := List.eq_nil_of_length_eq_zero (Nat.le_zero.mp hl)
    subst this; rfl
  | succ fuel ih =>
    intro l hl
    cases l with
    | nil => rfl
    | cons c cs =>
      have hcs : cs.length ≤ fuel := Nat.le_of_succ_le_succ hl
      rw [rbF]
      by_cases hc : c = '['
      · rw [if_pos hc]
        cases hsp : splitAtRB cs with
        | none =>
          have hnm : ']' ∉ rbF fuel cs :=
            fun hm => splitAtRB_none hsp (mem_rbF fuel cs _ hm)
          rw [hasBracketPat, brkMatchAt, splitAtRB_of_not_mem hnm, ih cs hcs]
          simp
        | some p =>
          obtain ⟨w, rest⟩ := p
          cases w with
          | nil =>
            have hcseq := (splitAtRB_some hsp).1
            simp only [List.nil_append] at hcseq
            subst hcseq
            obtain ⟨t, ht⟩ := rbF_cons_rsb fuel rest
            have h1 : brkMatchAt (rbF fuel (']' :: rest)) = false := by
              rw [ht]; exact brkMatchAt_rsb t
            have h2 : hasBracketPat (rbF fuel (']' :: rest)) = false := ih _ hcs
            rw [hasBracketPat, h1, h2]
            simp
          | cons a as =>
            have hcseq := (splitAtRB_some hsp).1
            have hrest : rest.length ≤ fuel := by
              subst hcseq
              simp only [List.length_append, List.length_cons] at hcs
              omega
            exact ih rest hrest
      · rw [if_neg hc, hasBracketPat, ih cs hcs]
        simp [hc]

theorem hasBracketPat_removeBrackets (l : List Char) :
    hasBracketPat (removeBrackets l) = false :=
  hasBracketPat_rbF l.length l le_rfl

theorem rbF_fix : ∀ (fuel : Nat) (l : List Char), hasBracketPat l = false → rbF fuel l = l := by
  intro fuel
  induction fuel with
  | zero => intro l _; rfl
  | succ fuel ih =>
    intro l h
    cases l with
    | nil => rfl
    | cons c cs =>
      have htail : hasBracketPat cs = false := by
        cases hx : hasBracketPat cs with
        | false => rfl
        | true => rw [hasBracketPat, hx] at h; simp at h
      rw [rbF]
      by_cases hc : c = '['
      · have hbm : brkMatchAt cs = false := by
          cases hb : brkMatchAt cs with
          | false => rfl
          | true => rw [hasBracketPat, hc, hb] at h; simp at h
        rw [if_pos hc]
        cases hsp : splitAtRB cs with
        | none => rw [ih cs htail, hc]
        | some p =>
          obtain ⟨w, rest⟩ := p
          cases w with
          | nil => rw [ih cs htail, hc]
          | cons a as =>
            rw [brkMatchAt, hsp] at hbm
            simp at hbm
      · rw [if_neg hc, ih cs htail]

theorem removeBrackets_fix (l : List Char) (h : hasBracketPat l = false) :
    removeBrackets l = l :=
  rbF_fix l.length l h

theorem splitAtRB_replaceNbsp (cs : List Char) :
    splitAtRB (replaceNbsp cs) =
      (splitAtRB cs).map (fun p => (replaceNbsp p.1, replaceNbsp p.2)) := by
  induction cs with
  | nil => rfl
  | cons c cs ih =>
    show splitAtRB ((if c = nbsp then ' ' else c) :: replaceNbsp cs) = _
    by_cases hc : c = ']'
    · subst hc
      rw [if_neg (by decide), splitAtRB, if_pos rfl]
      conv_rhs => rw [splitAtRB, if_pos rfl]
      rfl
    · have hd : ¬((if c = nbsp then ' ' else c) = ']') := by
        by_cases hn : c = nbsp
        · rw [if_pos hn]; decide
        · rw [if_neg hn]; exact hc
      rw [splitAtRB, if_neg hd, ih]
      conv_rhs => rw [splitAtRB, if_neg hc]
      cases hsp : splitAtRB cs with
      | none => rfl
      | some p => rfl

theorem brkMatchAt_replaceNbsp (cs : List Char) :
    brkMatchAt (replaceNbsp cs) = brkMatchAt cs := by
  rw [brkMatchAt, brkMatchAt, splitAtRB_replaceNbsp]
  cases hsp : splitAtRB cs with
  | none => rfl
  | some p =>
    obtain ⟨w, r⟩ := p
    show (!(replaceNbsp w).isEmpty) = !w.isEmpty
    cases w <;> rfl

theorem hasBracketPat_replaceNbsp (l : List Char) :
    hasBracketPat (replaceNbsp l) = hasBracketPat l := by
  induction l with
  | nil => rfl
  | cons c cs ih =>
    show hasBracketPat ((if c = nbsp then ' ' else c) :: replaceNbsp cs) = _
    rw [hasBracketPat, hasBracketPat, brkMatchAt_replaceNbsp, ih]
    congr 2
    by_cases hn : c = nbsp
    · rw [if_pos hn, hn]; decide
    · rw [if_neg hn]

theorem not_nbsp_mem_replaceNbsp (l : List Char) : ∀ x ∈ replaceNbsp l, x ≠ nbsp := by
  intro x hx
  rw [replaceNbsp, List.mem_map] at hx
  obtain ⟨y, _, rfl⟩ := hx
  by_cases hy : y = nbsp
  · rw [if_pos hy]; decide
  · rw [if_neg hy]; exact hy

theorem splitAtRB_append (b : List Char) : ∀ {cs w r : List Char},
    splitAtRB cs = some (w, r) → splitAtRB (cs ++ b) = some (w, r ++ b) := by
  intro cs
  induction cs with
  | nil => intro w r h; simp [splitAtRB] at h
  | cons c cs ih =>
    intro w r h
    rw [splitAtRB] at h
    rw [List.cons_append, splitAtRB]
    by_cases hc : c = ']'
    · rw [if_pos hc] at h ⊢
      injection h with h'
      cases h'
      rfl
    · rw [if_neg hc] at h ⊢
      rw [Option.map_eq_some'] at h
      obtain ⟨⟨w', r'⟩, h1, h2⟩ := h
      injection h2 with ha hb
      cases ha
      cases hb
      rw [ih h1]
      rfl

theorem hasBracketPat_append_right (a b : List Char) (h : hasBracketPat b = true) :
    hasBracketPat (a ++ b) = true := by
  induction a with
  | nil => simpa using h
  | cons c a ih =>
    rw [List.cons_append, hasBracketPat, ih]
    simp

theorem hasBracketPat_append_left (a b : List Char) (h : hasBracketPat a = true) :
    hasBracketPat (a ++ b) = true := by
  induction a with
  | nil => simp [hasBracketPat] at h
  | cons c a ih =>
    rw [List.cons_append, hasBracketPat]
    rw [hasBracketPat] at h
    simp only [Bool.or_eq_true, Bool.and_eq_true] at h
    rcases h with ⟨hcb, hbm⟩ | h1
    · cases hsp : splitAtRB a with
      | none => rw [brkMatchAt, hsp] at hbm; simp at hbm
      | some p =>
        obtain ⟨w, r⟩ := p
        rw [brkMatchAt, hsp] at hbm
        have hbm' : brkMatchAt (a ++ b) = true := by
          rw [brkMatchAt, splitAtRB_append b hsp]
          simpa using hbm
        rw [hbm', hcb]
        simp
    · rw [ih h1]
      simp

theorem hasBracketPat_of_append_left {a b : List Char}
    (h : hasBracketPat (a ++ b) = false) : hasBracketPat a = false := by
  cases hx : hasBracketPat a with
  | false => rfl
  | true => have := hasBracketPat_append_left a b hx; simp [h] at this

theorem hasBracketPat_of_append_right {a b : List Char}
    (h : hasBracketPat (a ++ b) = false) : hasBracketPat b = false := by
  cases hx : hasBracketPat b with
  | false => rfl
  | true => have := hasBracketPat_append_right a b hx; simp [h] at this

theorem hasBracketPat_tail {c : Char} {cs : List Char}
    (h : hasBracketPat (c :: cs) = false) : hasBracketPat cs = false := by
  cases hx : hasBracketPat cs with
  | false => rfl
  | true => rw [hasBracketPat, hx] at h; simp at h

theorem brkMatchAt_of_false {c : Char} {cs : List Char} (hc : c = '[')
    (h : hasBracketPat (c :: cs) = false) : brkMatchAt cs = false := by
  cases hb : brkMatchAt cs with
  | false => rfl
  | true => rw [hasBracketPat, hc, hb] at h; simp at h

theorem cwF_nil (fuel : Nat) : cwF fuel [] = [] := by cases fuel <;> rfl

theorem mem_cwF : ∀ (fuel : Nat) (l : List Char) (x : Char),
    x ∈ cwF fuel l → x = ' ' ∨ x ∈ l := by
  intro fuel
  induction fuel with
  | zero => intro l x hx; exact Or.inr hx
  | succ fuel ih =>
    intro l x hx
    cases l with
    | nil => exact Or.inr hx
    | cons c cs =>
      rw [cwF] at hx
      by_cases hc : isPySpace c = true
      · rw [if_pos hc] at hx
        rcases List.mem_cons.mp hx with h | h
        · exact Or.inl h
        · rcases ih _ x h with h' | h'
          · exact Or.inl h'
          · exact Or.inr (List.mem_cons_of_mem _ ((List.dropWhile_suffix isPySpace).subset h'))
      · rw [if_neg hc] at hx
        rcases List.mem_cons.mp hx with h | h
        · exact Or.inr (List.mem_cons.mpr (Or.inl h))
        · rcases ih cs x h with h' | h'
          · exact Or.inl h'
          · exact Or.inr (List.mem_cons_of_mem _ h')

theorem cwF_cons_not_ws (fuel : Nat) (c : Char) (cs : List Char) (hc : isPySpace c = false) :
    ∃ t, cwF fuel (c :: cs) = c :: t := by
  cases fuel with
  | zero => exact ⟨cs, rfl⟩
  | succ fuel => exact ⟨cwF fuel cs, by rw [cwF, if_neg (by simp [hc])]⟩

theorem cwF_head (fuel : Nat) (m : List Char)
    (h : ∀ x, m.head? = some x → isPySpace x = false) : (cwF fuel m).head? = m.head? := by
  cases m with
  | nil => rw [cwF_nil]
  | cons x xs =>
    obtain ⟨t, ht⟩ := cwF_cons_not_ws fuel x xs (h x rfl)
    rw [ht]
    rfl

theorem hasBracketPat_cwF : ∀ (fuel : Nat) (l : List Char), hasBracketPat l = false →
    hasBracketPat (cwF fuel l) = false := by
  intro fuel
  induction fuel with
  | zero => intro l h; exact h
  | succ fuel ih =>
    intro l h
    cases l with
    | nil => rfl
    | cons c cs =>
      have htail : hasBracketPat cs = false := hasBracketPat_tail h
      rw [cwF]
      by_cases hws : isPySpace c = true
      · rw [if_pos hws, hasBracketPat]
        have hdw : hasBracketPat (cs.dropWhile isPySpace) = false := by
          obtain ⟨a, ha⟩ := List.dropWhile_suffix isPySpace (l := cs)
          exact hasBracketPat_of_append_right (a := a) (ha.symm ▸ htail)
        rw [ih _ hdw]
        simp
      · rw [if_neg hws, hasBracketPat, ih cs htail]
        by_cases hc : c = '['
        · have hbm : brkMatchAt cs = false := brkMatchAt_of_false hc h
          have hout : brkMatchAt (cwF fuel cs) = false := by
            cases hsp : splitAtRB cs with
            | none =>
              have hnm : ']' ∉ cwF fuel cs := by
                intro hm
                rcases mem_cwF fuel cs _ hm with h' | h'
                · exact absurd h' (by decide)
                · exact splitAtRB_none hsp h'
              rw [brkMatchAt, splitAtRB_of_not_mem hnm]
            | some p =>
              obtain ⟨w, r⟩ := p
              cases w with
              | nil =>
                have hcseq := (splitAtRB_some hsp).1
                simp only [List.nil_append] at hcseq
                subst hcseq
                obtain ⟨t, ht⟩ := cwF_cons_not_ws fuel ']' r (by decide)
                rw [ht]
                exact brkMatchAt_rsb t
              | cons a as =>
                rw [brkMatchAt, hsp] at hbm
                simp at hbm
          rw [hout]
          simp
        · simp [hc]

theorem pyStrip_decomp (l : List Char) : ∃ a b, l = a ++ (pyStrip l ++ b) := by
  refine ⟨l.takeWhile isPySpace,
    ((l.dropWhile isPySpace).reverse.takeWhile isPySpace).reverse, ?_⟩
  conv_lhs => rw [← List.takeWhile_append_dropWhile (p := isPySpace) (l := l)]
  congr 1
  conv_lhs =>
    rw [← List.reverse_reverse (l.dropWhile isPySpace),
      ← List.takeWhile_append_dropWhile (p := isPySpace) (l := (l.dropWhile isPySpace).reverse),
      List.reverse_append]
  rfl

theorem mem_pyStrip (l : List Char) (x : Char) (hx : x ∈ pyStrip l) : x ∈ l := by
  obtain ⟨a, b, hab⟩ := pyStrip_decomp l
  rw [hab]
  simp [hx]

theorem head_dropWhile_false (p : Char → Bool) (l : List Char) {c : Char}
    (h : (l.dropWhile p).head? = some c) : p c = false := by
  have := List.head?_dropWhile_not p l
  rw [h] at this
  exact this

theorem hasDoubleWs_tail {c : Char} {cs : List Char}
    (h : hasDoubleWs (c :: cs) = false) : hasDoubleWs cs = false := by
  cases cs with
  | nil => rfl
  | cons d r =>
    cases hx : hasDoubleWs (d :: r) with
    | false => rfl
    | true => rw [hasDoubleWs, hx] at h; simp at h

theorem hasDoubleWs_append_left (a b : List Char) (h : hasDoubleWs a = true) :
    hasDoubleWs (a ++ b) = true := by
  induction a with
  | nil => simp [hasDoubleWs] at h
  | cons c a ih =>
    cases a with
    | nil => simp [hasDoubleWs] at h
    | cons d r =>
      rw [hasDoubleWs] at h
      rw [List.cons_append, List.cons_append, hasDoubleWs, ← List.cons_append]
      simp only [Bool.or_eq_true] at h
      rcases h with h1 | h1
      · rw [h1]; simp
      · rw [ih h1]; simp

theorem hasDoubleWs_append_right (a b : List Char) (h : hasDoubleWs b = true) :
    hasDoubleWs (a ++ b) = true := by
  induction a with
  | nil => simpa using h
  | cons c a ih =>
    rw [List.cons_append]
    cases hab : a ++ b with
    | nil =>
      have hb : b = [] := (List.append_eq_nil.mp hab).2
      rw [hb] at h
      simp [hasDoubleWs] at h
    | cons d r =>
      rw [hasDoubleWs, ← hab, ih]
      simp

theorem hasDoubleWs_of_append_left {a b : List Char}
    (h : hasDoubleWs (a ++ b) = false) : hasDoubleWs a = false := by
  cases hx : hasDoubleWs a with
  | false => rfl
  | true => have := hasDoubleWs_append_left a b hx; simp [h] at this

theorem hasDoubleWs_of_append_right {a b : List Char}
    (h : hasDoubleWs (a ++ b) = false) : hasDoubleWs b = false := by
  cases hx : hasDoubleWs b with
  | false => rfl
  | true => have := hasDoubleWs_append_right a b hx; simp [h] at this

theorem hasDoubleWs_cwF : ∀ (fuel : Nat) (l : List Char), l.length ≤ fuel →
    hasDoubleWs (cwF fuel l) = false := by
  intro fuel
  induction fuel with
  | zero =>
    intro l hl
    have : l = [] := List.eq_nil_of_length_eq_zero (Nat.le_zero.mp hl)
    subst this; rfl
  | succ fuel ih =>
    intro l hl
    cases l with
    | nil => rfl
    | cons c cs =>
      have hcs : cs.length ≤ fuel := Nat.le_of_succ_le_succ hl
      rw [cwF]
      by_cases hws : isPySpace c = true
      · rw [if_pos hws]
        have hm : (cs.dropWhile isPySpace).length ≤ fuel :=
          le_trans (List.dropWhile_suffix isPySpace).length_le hcs
        cases ht : cwF fuel (cs.dropWhile isPySpace) with
        | nil => rfl
        | cons d r =>
          have hhead : (cwF fuel (cs.dropWhile isPySpace)).head? = (cs.dropWhile isPySpace).head? :=
            cwF_head fuel _ (fun x hx => head_dropWhile_false isPySpace cs hx)
          rw [ht] at hhead
          have hd : isPySpace d = false := head_dropWhile_false isPySpace cs hhead.symm
          rw [hasDoubleWs, hd, ← ht, ih _ hm]
          simp
      · rw [if_neg hws]
        cases ht : cwF fuel cs with
        | nil => rfl
        | cons d r =>
          rw [hasDoubleWs, ← ht, ih _ hcs]
          have hcf : isPySpace c = false := by simpa using hws
          rw [hcf]
          simp

theorem mem_cwF_ws : ∀ (fuel : Nat) (l : List Char), l.length ≤ fuel →
    ∀ x ∈ cwF fuel l, isPySpace x = true → x = ' ' := by
  intro fuel
  induction fuel with
  | zero =>
    intro l hl x hx _
    have : l = [] := List.eq_nil_of_length_eq_zero (Nat.le_zero.mp hl)
    subst this
    exact absurd hx (List.not_mem_nil x)
  | succ fuel ih =>
    intro l hl x hx hws
    cases l with
    | nil => exact absurd hx (List.not_mem_nil x)
    | cons c cs =>
      have hcs : cs.length ≤ fuel := Nat.le_of_succ_le_succ hl
      rw [cwF] at hx
      by_cases hc : isPySpace c = true
      · rw [if_pos hc] at hx
        rcases List.mem_cons.mp hx with h | h
        · exact h
        · exact ih _ (le_trans (List.dropWhile_suffix isPySpace).length_le hcs) x h hws
      · rw [if_neg hc] at hx
        rcases List.mem_cons.mp hx with h | h
        · subst h; simp [hws] at hc
        · exact ih cs hcs x h hws

theorem replaceNbsp_fix (l : List Char) (h : ∀ x ∈ l, x ≠ nbsp) : replaceNbsp l = l := by
  induction l with
  | nil => rfl
  | cons c cs ih =>
    show (if c = nbsp then ' ' else c) :: replaceNbsp cs = c :: cs
    rw [if_neg (h c (List.mem_cons_self c cs)),
      ih (fun x hx => h x (List.mem_cons_of_mem c hx))]

theorem cwF_fix : ∀ (fuel : Nat) (l : List Char), hasDoubleWs l = false →
    (∀ x ∈ l, isPySpace x = true → x = ' ') → cwF fuel l = l := by
  intro fuel
  induction fuel with
  | zero => intro l _ _; rfl
  | succ fuel ih =>
    intro l hdw hos
    cases l with
    | nil => rfl
    | cons c cs =>
      rw [cwF]
      by_cases hws : isPySpace c = true
      · rw [if_pos hws]
        have hc : c = ' ' := hos c (List.mem_cons_self c cs) hws
        have hdrop : cs.dropWhile isPySpace = cs := by
          cases cs with
          | nil => rfl
          | cons d r =>
            have hd : isPySpace d = false := by
              cases hd : isPySpace d with
              | false => rfl
              | true => rw [hasDoubleWs, hws, hd] at hdw; simp at hdw
            rw [List.dropWhile_cons_of_neg (by simp [hd])]
        rw [hdrop, ih cs (hasDoubleWs_tail hdw) (fun x hx => hos x (List.mem_cons_of_mem c hx)),
          hc]
      · rw [if_neg hws,
          ih cs (hasDoubleWs_tail hdw) (fun x hx => hos x (List.mem_cons_of_mem c hx))]

theorem hasEdgeWs_head {c : Char} {cs : List Char}
    (h : hasEdgeWs (c :: cs) = false) : isPySpace c = false := by
  simp only [hasEdgeWs, List.head?_cons] at h
  cases hx : isPySpace c with
  | false => rfl
  | true => rw [hx] at h; simp at h

theorem hasEdgeWs_last {l : List Char} {c : Char} (hg : l.getLast? = some c)
    (h : hasEdgeWs l = false) : isPySpace c = false := by
  simp only [hasEdgeWs, hg] at h
  cases hx : isPySpace c with
  | false => rfl
  | true => rw [hx] at h; simp at h

theorem pyStrip_fix (l : List Char) (h : hasEdgeWs l = false) : pyStrip l = l := by
  cases l with
  | nil => rfl
  | cons c cs =>
    have hc : isPySpace c = false := hasEdgeWs_head h
    rw [pyStrip, List.dropWhile_cons_of_neg (by simp [hc])]
    cases hr : (c :: cs).reverse with
    | nil => exact absurd hr (by simp)
    | cons x xs =>
      have hx : (c :: cs).getLast? = some x := by
        rw [← List.head?_reverse, hr]
        rfl
      have hxf : isPySpace x = false := hasEdgeWs_last hx h
      rw [List.dropWhile_cons_of_neg (by simp [hxf]), ← hr, List.reverse_reverse]

theorem hasEdgeWs_eq_false_of (l : List Char)
    (hh : ∀ c, l.head? = some c → isPySpace c = false)
    (hl : ∀ c, l.getLast? = some c → isPySpace c = false) : hasEdgeWs l = false := by
  rw [hasEdgeWs]
  have h1 : (match l.head? with | some c => isPySpace c | none => false) = false := by
    cases hc : l.head? with
    | none => rfl
    | some c => exact hh c hc
  have h2 : (match l.getLast? with | some c => isPySpace c | none => false) = false := by
    cases hc : l.getLast? with
    | none => rfl
    | some c => exact hl c hc
  rw [h1, h2]
  rfl

theorem hasEdgeWs_pyStrip (l : List Char) : hasEdgeWs (pyStrip l) = false := by
  by_cases hq0 : (l.dropWhile isPySpace).reverse.dropWhile isPySpace = []
  · show hasEdgeWs ((l.dropWhile isPySpace).reverse.dropWhile isPySpace).reverse = false
    rw [hq0]
    rfl
  · apply hasEdgeWs_eq_false_of
    · intro c hc
      have hc' : ((l.dropWhile isPySpace).reverse.dropWhile isPySpace).getLast? = some c := by
        rw [← List.head?_reverse]
        exact hc
      obtain ⟨t, ht⟩ := List.dropWhile_suffix isPySpace
        (l := (l.dropWhile isPySpace).reverse)
      have hrev : (l.dropWhile isPySpace).reverse.getLast? = some c := by
        rw [← ht, List.getLast?_append_of_ne_nil t hq0]
        exact hc'
      rw [List.getLast?_reverse] at hrev
      exact head_dropWhile_false isPySpace l hrev
    · intro c hc
      have hc' : ((l.dropWhile isPySpace).reverse.dropWhile isPySpace).head? = some c := by
        rw [← List.getLast?_reverse]
        exact hc
      exact head_dropWhile_false isPySpace (l.dropWhile isPySpace).reverse hc'

theorem clean_text_props (s : List Char) :
    hasBracketPat (clean_text (some s)) = false ∧
    containsNbsp (clean_text (some s)) = false ∧
    hasDoubleWs (clean_text (some s)) = false ∧
    hasEdgeWs (clean_text (some s)) = false ∧
    (∀ x ∈ clean_text (some s), isPySpace x = true → x = ' ') := by
  have h1 : hasBracketPat (replaceNbsp (removeBrackets s)) = false := by
    rw [hasBracketPat_replaceNbsp]
    exact hasBracketPat_removeBrackets s
  have h2 : hasBracketPat (collapseWs (replaceNbsp (removeBrackets s))) = false :=
    hasBracketPat_cwF _ _ h1
  have hdw2 : hasDoubleWs (collapseWs (replaceNbsp (removeBrackets s))) = false :=
    hasDoubleWs_cwF _ _ le_rfl
  have hmem2 : ∀ x ∈ collapseWs (replaceNbsp (removeBrackets s)), x ≠ nbsp := by
    intro x hx
    rcases mem_cwF _ _ x hx with h | h
    · subst h; decide
    · exact not_nbsp_mem_replaceNbsp _ x h
  have hws2 : ∀ x ∈ collapseWs (replaceNbsp (removeBrackets s)), isPySpace x = true → x = ' ' :=
    mem_cwF_ws _ _ le_rfl
  obtain ⟨a, b, hab⟩ := pyStrip_decomp (collapseWs (replaceNbsp (removeBrackets s)))
  have hout : clean_text (some s) = pyStrip (collapseWs (replaceNbsp (removeBrackets s))) := rfl
  rw [hout]
  refine ⟨?_, ?_, ?_, hasEdgeWs_pyStrip _, ?_⟩
  · rw [hab] at h2
    exact hasBracketPat_of_append_left (hasBracketPat_of_append_right h2)
  · rw [containsNbsp, List.any_eq_false]
    intro x hx
    simpa using hmem2 x (mem_pyStrip _ x hx)
  · rw [hab] at hdw2
    exact hasDoubleWs_of_append_left (hasDoubleWs_of_append_right hdw2)
  · intro x hx
    exact hws2 x (mem_pyStrip _ x hx)

theorem hasBracketPat_iff (l : List Char) : hasBracketPat l = true ↔
    ∃ a w b, l = a ++ '[' :: (w ++ ']' :: b) ∧ w ≠ [] ∧ ']' ∉ w := by
  constructor
  · induction l with
    | nil => intro h; simp [hasBracketPat] at h
    | cons c cs ih =>
      intro h
      rw [hasBracketPat] at h
      simp only [Bool.or_eq_true, Bool.and_eq_true] at h
      rcases h with ⟨hcb, hbm⟩ | h1
      · have hc : c = '[' := of_decide_eq_true hcb
        cases hsp : splitAtRB cs with
        | none => rw [brkMatchAt, hsp] at hbm; simp at hbm
        | some p =>
          obtain ⟨w, r⟩ := p
          rw [brkMatchAt, hsp] at hbm
          obtain ⟨hcs, hnm⟩ := splitAtRB_some hsp
          refine ⟨[], w, r, ?_, ?_, hnm⟩
          · rw [hcs, hc]; rfl
          · intro hw0; rw [hw0] at hbm; simp at hbm
      · obtain ⟨a, w, b, hl, hw, hnm⟩ := ih h1
        exact ⟨c :: a, w, b, by rw [hl]; rfl, hw, hnm⟩
  · rintro ⟨a, w, b, hl, hw, hnm⟩
    subst hl
    apply hasBracketPat_append_right
    rw [hasBracketPat]
    have hbm : brkMatchAt (w ++ ']' :: b) = true := by
      rw [brkMatchAt, splitAtRB_prefix hnm b]
      cases w with
      | nil => exact absurd rfl hw
      | cons x xs => rfl
    rw [hbm]
    simp

theorem hasDoubleWs_iff (l : List Char) : hasDoubleWs l = true ↔
    ∃ a c d b, l = a ++ c :: d :: b ∧ isPySpace c = true ∧ isPySpace d = true := by
  constructor
  · induction l with
    | nil => intro h; simp [hasDoubleWs] at h
    | cons x xs ih =>
      intro h
      cases xs with
      | nil => simp [hasDoubleWs] at h
      | cons y ys =>
        rw [hasDoubleWs] at h
        simp only [Bool.or_eq_true, Bool.and_eq_true] at h
        rcases h with ⟨h1, h2⟩ | h1
        · exact ⟨[], x, y, ys, rfl, h1, h2⟩
        · obtain ⟨a, c, d, b, hl, hc, hd⟩ := ih h1
          exact ⟨x :: a, c, d, b, by rw [hl]; rfl, hc, hd⟩
  · rintro ⟨a, c, d, b, hl, hc, hd⟩
    subst hl
    apply hasDoubleWs_append_right
    rw [hasDoubleWs, hc, hd]
    rfl

/-- Claim C4: for every input string, the output of `clean_text` contains no substring
matching the bracketed citation pattern (a `[`, one or more non-`]` characters, a `]`),
contains no non-breaking-space character, contains no run of two or more consecutive
whitespace characters, and has no leading or trailing whitespace. The four Bool
checkers are characterised by `hasBracketPat_iff` and `hasDoubleWs_iff`. -/
theorem claim_C4_normalizer_output (s : List Char) :
    hasBracketPat (clean_text (some s)) = false ∧
    containsNbsp (clean_text (some s)) = false ∧
    hasDoubleWs (clean_text (some s)) = false ∧
    hasEdgeWs (clean_text (some s)) = false := by
  obtain ⟨h1, h2, h3, h4, _⟩ := clean_text_props s
  exact ⟨h1, h2, h3, h4⟩

/-- Claim C5: `clean_text` is idempotent — applying it to its own output changes
nothing. -/
theorem claim_C5_idempotent (s : List Char) :
    clean_text (some (clean_text (some s))) = clean_text (some s) := by
  obtain ⟨h1, h2, h3, h4, h5⟩ := clean_text_props s
  have hn : ∀ x ∈ clean_text (some s), x ≠ nbsp := by
    rw [containsNbsp, List.any_eq_false] at h2
    intro x hx
    simpa using h2 x hx
  show pyStrip (collapseWs (replaceNbsp (removeBrackets (clean_text (some s))))) = _
  rw [removeBrackets_fix _ h1, replaceNbsp_fix _ hn, collapseWs, cwF_fix _ _ h3 h5]
  exact pyStrip_fix _ h4

/-- Claim C9: absent input maps to the empty string — `clean_text` of a missing
(`None`) value is `""`, and `join_and_clean` of an empty node list is `""`.
(In the embedding both functions are total and always return a string, matching
the guarantee that the output is never null.) -/
theorem claim_C9_absent_input : clean_text none = [] ∧ join_and_clean [] = [] :=
  ⟨rfl, rfl⟩

theorem scrape_first10_ok {doc : Node} {g : List (List (List Char))}
    (h : scrape_first10 doc = .ok g) :
    g = headerRow :: (rows_1_to_10 doc).map rowOf := by
  simp only [scrape_first10] at h
  by_cases he : (rows_1_to_10 doc).isEmpty = true
  · rw [if_pos he] at h; exact absurd h (by simp)
  · rw [if_neg he] at h
    injection h with h
    exact h.symm

/-- Claim C1 (code_bug evidence): the spec demands a fatal error whenever the page
yields fewer than 11 body rows, and the function docstring promises header + 10
rows; but on a document whose matching table has only 5 body rows the code
succeeds and returns a 5-row grid (header + 4 data rows), because line 45 only
checks that the row slice is nonempty. -/
theorem claim_C1_partial_grid :
    (bodyRows fixture5).length = 5 ∧
    scrape_first10 fixture5 = .ok grid5 ∧
    grid5.length = 5 :=
  ⟨rfl, rfl, rfl⟩

/-- Claim C2: when the document's matching table yields 12 body rows, the selected
rows are exactly body rows 2 through 11 in document order (positions are purely
positional: entry `i` of the slice is body row `i+1`), giving 10 rows; row 12 is
ignored; and the scrape succeeds with the header row in front. -/
theorem claim_C2_positional (doc : Node) (rs : List Node)
    (hb : bodyRows doc = rs) (hlen : rs.length = 12) :
    (rows_1_to_10 doc).length = 10 ∧
    (∀ i : Nat, (rows_1_to_10 doc)[i]? = if i < 10 then rs[i + 1]? else none) ∧
    scrape_first10 doc = .ok (headerRow :: (rows_1_to_10 doc).map rowOf) := by
  have hr : rows_1_to_10 doc = (rs.drop 1).take 10 := by rw [rows_1_to_10, hb]
  have hlen10 : (rows_1_to_10 doc).length = 10 := by
    rw [hr, List.length_take, List.length_drop, hlen]
    decide
  refine ⟨hlen10, ?_, ?_⟩
  · intro i
    rw [hr, List.getElem?_take]
    by_cases hi : i < 10
    · rw [if_pos hi, if_pos hi, List.getElem?_drop, Nat.add_comm 1 i]
    · rw [if_neg hi, if_neg hi]
  · have hne : rows_1_to_10 doc ≠ [] := by
      intro h0
      rw [h0] at hlen10
      simp at hlen10
    simp only [scrape_first10]
    rw [if_neg (by simp [List.isEmpty_iff, hne])]

/-- Witness for claim C2: on the concrete 12-row fixture, the slice has length 10 and
the scrape returns exactly the grid of body rows 2-11 (header first, row 12 dropped). -/
theorem claim_C2_witness :
    (rows_1_to_10 fixture12).length = 10 ∧ scrape_first10 fixture12 = .ok grid12 := by
  have h := claim_C2_positional fixture12 (bodyRows fixture12) rfl (by decide)
  refine ⟨h.1, ?_⟩
  rw [h.2.2]
  rfl

/-- Claim C6: on a document where the caption-and-class table query matches nothing,
`scrape_first10` raises the explicit structure-mismatch error, and `main` performs
no filesystem action at all: `runMain` propagates the error, and its effect list
(directory creation and file writes) exists only in the success case. -/
theorem claim_C6_no_table (doc : Node) (rng vout bout : List Char)
    (h : matchingTables doc = []) :
    scrape_first10 doc = .error scrapeErr ∧ runMain doc rng vout bout = .error scrapeErr := by
  have hb : bodyRows doc = [] := by rw [bodyRows, h]; rfl
  have hrows : rows_1_to_10 doc = [] := by rw [rows_1_to_10, hb]; rfl
  have hs : scrape_first10 doc = .error scrapeErr := by
    simp only [scrape_first10, hrows]
    rfl
  refine ⟨hs, ?_⟩
  simp only [runMain, hs]

/-- Witness for claim C6: the table-less fixture document triggers the
structure-mismatch error and no effects. -/
theorem claim_C6_witness :
    scrape_first10 noTableDoc = .error scrapeErr ∧
    runMain noTableDoc (str "Sheet1!A:D") (str "data/values.json")
      (str "data/append_body.json") = .error scrapeErr :=
  claim_C6_no_table noTableDoc (str "Sheet1!A:D") (str "data/values.json")
    (str "data/append_body.json") rfl

/-- Counterexample to claim C3: with `--values-out out/values.json` the destination
directory of the values file is `out`, yet the run creates only the fixed directory
`data` (line 74 is `os.makedirs("data", exist_ok=True)`, ignoring the argument
paths), so the destination directory of that output is never created. -/
theorem claim_C3_counterexample :
    runMain fixture5 (str "Sheet1!A:D") (str "out/values.json") (str "data/append_body.json") =
      .ok [FsEffect.mkdir (str "data"),
           FsEffect.write (str "out/values.json") (gridJson grid5),
           FsEffect.write (str "data/append_body.json") (bodyJson (str "Sheet1!A:D") grid5)] ∧
    mkdirDirs [FsEffect.mkdir (str "data"),
           FsEffect.write (str "out/values.json") (gridJson grid5),
           FsEffect.write (str "data/append_body.json") (bodyJson (str "Sheet1!A:D") grid5)] =
      [str "data"] ∧
    dirname (str "out/values.json") = str "out" ∧
    ((str "out") == (str "data")) = false :=
  ⟨rfl, rfl, rfl, rfl⟩

/-- Claim C3 as amended: after a successful scrape, `main` always creates exactly the
fixed directory `data` (the parent of the default output paths) and then opens both
given output paths in write mode — `FsEffect.write` models create-or-truncate, so
existing files are overwritten unconditionally; parent directories of non-default
output paths are not created. -/
theorem claim_C3_amended_effects (doc : Node) (rng vout bout : List Char)
    (values : List (List (List Char))) (h : scrape_first10 doc = .ok values) :
    runMain doc rng vout bout =
      .ok [FsEffect.mkdir (str "data"),
           FsEffect.write vout (gridJson values),
           FsEffect.write bout (bodyJson rng values)] := by
  simp only [runMain, h]

/-- Witness for the amended claim C3: the concrete run on `fixture5` with the default
output paths. -/
theorem claim_C3_amended_witness :
    runMain fixture5 (str "Sheet1!A:D") (str "data/values.json") (str "data/append_body.json") =
      .ok [FsEffect.mkdir (str "data"),
           FsEffect.write (str "data/values.json") (gridJson grid5),
           FsEffect.write (str "data/append_body.json") (bodyJson (str "Sheet1!A:D") grid5)] :=
  claim_C3_amended_effects fixture5 (str "Sheet1!A:D") (str "data/values.json")
    (str "data/append_body.json") grid5 rfl

/-- Claim C7: a warning naming the row's year is emitted exactly when the normalized
score field has no digits-dash-digits substring (en dash or hyphen); either way the
row is included in the output with the score's literal text at index 2. The score
`4–2` passes the shape check and `TBD` fails it. -/
theorem claim_C7_score_warning (doc tr : Node) (htr : tr ∈ rows_1_to_10 doc) :
    ((rowWarn tr).isSome = true ↔ hasScoreShape (scoreOf tr) = false) ∧
    (hasScoreShape (scoreOf tr) = false → rowWarn tr = some (yearOf tr)) ∧
    (∀ g, scrape_first10 doc = .ok g → rowOf tr ∈ g ∧ (rowOf tr)[2]? = some (scoreOf tr)) ∧
    hasScoreShape (str "4–2") = true ∧ hasScoreShape (str "TBD") = false := by
  refine ⟨?_, ?_, ?_, by decide, by decide⟩
  · cases h : hasScoreShape (scoreOf tr) with
    | true => rw [rowWarn, if_pos h]; simp
    | false => rw [rowWarn, if_neg (by simp [h])]; simp
  · intro h
    rw [rowWarn, if_neg (by simp [h])]
  · intro g hg
    rw [scrape_first10_ok hg]
    exact ⟨List.mem_cons_of_mem _ (List.mem_map_of_mem rowOf htr), rfl⟩

/-- Witness for claim C7: in `fixture5`, the `TBD` row is warned about (naming its
year 1934) while the `4–2` row passes silently; both appear in the output grid. -/
theorem claim_C7_witness :
    (rowWarn fix5rB).isSome = true ∧ rowWarn fix5rB = some (str "1934") ∧
    scoreOf fix5rB = str "TBD" ∧
    rowWarn fix5rA = none ∧ scoreOf fix5rA = str "4–2" := by
  have h := claim_C7_score_warning fixture5 fix5rB
    (by
      have he : rows_1_to_10 fixture5 = [fix5rA, fix5rB, fix5rC, fix5rD] := rfl
      rw [he]
      exact List.mem_cons_of_mem _ (List.mem_cons_self _ _))
  refine ⟨h.1.mpr (by decide), ?_, rfl, rfl, rfl⟩
  have h2 := h.2.1 (by decide)
  rw [h2]
  rfl

/-- Claim C8: whenever `main` succeeds, its effects are exactly one `mkdir` and the
two writes; the body file's JSON is an object with exactly the fields `range`
(the given range string), `majorDimension` (exactly `"ROWS"`) and `values`; and the
`values` field is the very same grid JSON written to the values file, with the
header row first. -/
theorem claim_C8_body_envelope (doc : Node) (rng vout bout : List Char)
    (effs : List FsEffect) (h : runMain doc rng vout bout = .ok effs) :
    ∃ values, scrape_first10 doc = .ok values ∧ values.head? = some headerRow ∧
      effs = [FsEffect.mkdir (str "data"),
              FsEffect.write vout (gridJson values),
              FsEffect.write bout (bodyJson rng values)] ∧
      (bodyJson rng values).keys = [str "range", str "majorDimension", str "values"] ∧
      (bodyJson rng values).getField (str "range") = some (.str rng) ∧
      (bodyJson rng values).getField (str "majorDimension") = some (.str (str "ROWS")) ∧
      (bodyJson rng values).getField (str "values") = some (gridJson values) := by
  cases hs : scrape_first10 doc with
  | error e =>
    have hrm : runMain doc rng vout bout = .error e := by simp only [runMain, hs]
    rw [hrm] at h
    exact absurd h (by simp)
  | ok values =>
    have hrm : runMain doc rng vout bout =
        .ok [FsEffect.mkdir (str "data"),
             FsEffect.write vout (gridJson values),
             FsEffect.write bout (bodyJson rng values)] := by
      simp only [runMain, hs]
    rw [hrm] at h
    injection h with h
    refine ⟨values, rfl, ?_, h.symm, rfl, rfl, rfl, rfl⟩
    rw [scrape_first10_ok hs]
    rfl

/-- Witness for claim C8: the concrete run on `fixture5` with the default paths —
the body envelope's `values` field equals the grid written to the values file. -/
theorem claim_C8_witness :
    runMain fixture5 (str "Sheet1!A:D") (str "data/values.json") (str "data/append_body.json") =
      .ok [FsEffect.mkdir (str "data"),
           FsEffect.write (str "data/values.json") (gridJson grid5),
           FsEffect.write (str "data/append_body.json") (bodyJson (str "Sheet1!A:D") grid5)] ∧
    (bodyJson (str "Sheet1!A:D") grid5).getField (str "values") = some (gridJson grid5) ∧
    (bodyJson (str "Sheet1!A:D") grid5).keys =
      [str "range", str "majorDimension", str "values"] := by
  obtain ⟨values, hv, hhead, heffs, hkeys, hr, hm, hval⟩ :=
    claim_C8_body_envelope fixture5 (str "Sheet1!A:D") (str "data/values.json")
      (str "data/append_body.json")
      [FsEffect.mkdir (str "data"),
       FsEffect.write (str "data/values.json") (gridJson grid5),
       FsEffect.write (str "data/append_body.json") (bodyJson (str "Sheet1!A:D") grid5)] rfl
  have hvg : values = grid5 := by
    have h5 : scrape_first10 fixture5 = .ok grid5 := rfl
    rw [hv] at h5
    injection h5
  subst hvg
  exact ⟨rfl, hval, hkeys⟩

theorem find_filter_head (l : List Node) (c : Node) (p q : Node → Bool)
    (hpq : ∀ x, q x = true → p x = true)
    (hf : l.find? p = some c) (hq : q c = true) : (l.filter q).head? = some c := by
  induction l with
  | nil => simp at hf
  | cons x xs ih =>
    cases hx : p x with
    | true =>
      rw [List.find?_cons_of_pos _ hx] at hf
      injection hf with hf
      subst hf
      rw [List.filter_cons_of_pos hq]
      rfl
    | false =>
      rw [List.find?_cons_of_neg _ (by simp [hx])] at hf
      have hqx : q x = false := by
        cases hqq : q x with
        | false => rfl
        | true => simp [hpq x hqq] at hx
      rw [List.filter_cons_of_neg (by simp [hqx])]
      exact ih hf

/-- Claim C10: when a row's first header-or-data cell is in fact a `td`, the year
query (`./*[self::th or self::td][1]`) and the winner query (`./td[1]`) select the
same cell, so the extracted year and winner fields coincide. -/
theorem claim_C10_year_eq_winner (tr c : Node) (hf : firstThTd tr = some c)
    (htd : isTag (str "td") c = true) : yearOf tr = winnerOf tr := by
  have hf' : (childrenOf tr).find?
      (fun n => isTag (str "th") n || isTag (str "td") n) = some c := hf
  have hh : ((childrenOf tr).filter (isTag (str "td"))).head? = some c :=
    find_filter_head (childrenOf tr) c _ _ (fun x hx => by simp [hx]) hf' htd
  have h0 : (tdCells tr)[0]? = some c := by
    rw [← List.head?_eq_getElem?, tdCells]
    exact hh
  rw [yearOf, winnerOf, hf, h0]

/-- Witness for claim C10: in a row whose four cells are all `td` (no `th` year
cell), the year and winner fields both read the first cell. -/
theorem claim_C10_witness :
    firstThTd (Node.elem (str "tr") (str "")
        [mkTd "1930", mkTd "Uruguay", mkTd "4-2", mkTd "Argentina"]) =
      some (mkTd "1930") ∧
    isTag (str "td") (mkTd "1930") = true ∧
    yearOf (Node.elem (str "tr") (str "")
        [mkTd "1930", mkTd "Uruguay", mkTd "4-2", mkTd "Argentina"]) =
      winnerOf (Node.elem (str "tr") (str "")
        [mkTd "1930", mkTd "Uruguay", mkTd "4-2", mkTd "Argentina"]) ∧
    yearOf (Node.elem (str "tr") (str "")
        [mkTd "1930", mkTd "Uruguay", mkTd "4-2", mkTd "Argentina"]) = str "1930" :=
  ⟨rfl, rfl,
    claim_C10_year_eq_winner
      (Node.elem (str "tr") (str "") [mkTd "1930", mkTd "Uruguay", mkTd "4-2", mkTd "Argentina"])
      (mkTd "1930") rfl rfl,
    rfl⟩

/-- Witness for claim C4: the checkers on a concrete cleaned string containing a
citation, a non-breaking space, doubled spaces and padding. -/
theorem claim_C4_witness :
    hasBracketPat (clean_text (some (str " Uruguay[1]  4 -  2 "))) = false ∧
    containsNbsp (clean_text (some (str " Uruguay[1]  4 -  2 "))) = false ∧
    hasDoubleWs (clean_text (some (str " Uruguay[1]  4 -  2 "))) = false ∧
    hasEdgeWs (clean_text (some (str " Uruguay[1]  4 -  2 "))) = false :=
  claim_C4_normalizer_output (str " Uruguay[1]  4 -  2 ")

/-- Witness for claim C5: idempotence at a concrete messy input. -/
theorem claim_C5_witness :
    clean_text (some (clean_text (some (str " Uruguay[1]  4 -  2 ")))) =
      clean_text (some (str " Uruguay[1]  4 -  2 ")) :=
  claim_C5_idempotent (str " Uruguay[1]  4 -  2 ")
